import Mathlib

/-!
Shallow embedding of the stackful coroutine engine of this repository
(`simple_coroutine.hpp` / `simple_coroutine.cpp`, the registry-based
variant, ucontext path).

The per-thread state of the engine consists of
  * `co_list`   : the call-stack registry, a vector of `Coroutine*`
                  whose entry 0 is the root sentinel `co_root`;
  * each coroutine's `m_handle` (a ucontext slot that stores a saved
    execution state) — modelled here as the parallel list `handles`;
  * `co_cur_index` : the current-index cursor;
and each coroutine object carries `m_cur_index` (fixed at construction),
`m_finished` and `m_task`.

A saved execution state (`ucontext_t` content) is modelled as a `Cont`:
either the fresh entry context created by `makecontext` (`Cont.start`),
or a suspended program point inside some frame's task (`Cont.seq i rest`,
frame `i` with the remaining operations `rest`), or a never-saved slot
(`Cont.uninit`, the default-constructed handle of the root sentinel).
`swapcontext(&a, &b)` is modelled by writing the caller's continuation
into slot `a` and installing slot `b`'s stored `Cont` as the machine's
currently executing continuation `cur`.

Task bodies are straight-line programs over `Op`: increment a shared
demo counter, call `Coroutine::yield`, call `resume` on the coroutine at
a given registry index, construct a nested coroutine, run a destructor,
or raise an exception.  The root driver (`main`) is the initial `cur`
continuation of frame 0.
-/

namespace SimpleCoro

/-- Error taxonomy.  `alreadyFinished` and `notInCoroutine` are the two
`std::logic_error` throws of `resume` and `yield`; `assertFailed` models
a C `assert` firing (or out-of-bounds registry access, undefined
behaviour in the source); `uninitContext` models switching to a
never-saved context; `taskFailure` models an exception escaping the
entry trampoline. -/
inductive CoErr where
  | alreadyFinished
  | notInCoroutine
  | assertFailed
  | uninitContext
  | taskFailure
deriving DecidableEq

/-- One operation of a task body (or of the root driver). -/
inductive Op where
  | incr
  | doYield
  | resumeAt (i : Nat)
  | construct (task : List Op)
  | destroyAt (i : Nat)
  | raiseErr

/-- A saved execution context (`ucontext_t` content / `m_handle`). -/
inductive Cont where
  | uninit
  | start (i : Nat)
  | seq (i : Nat) (rest : List Op)

/-- The registry index a continuation belongs to (the frame whose stack
it executes on). -/
def frameOf : Cont → Nat
  | .uninit => 0
  | .start i => i
  | .seq i _ => i

/-- One `Coroutine` object's plain data members. -/
structure Frame where
  m_cur_index : Nat
  m_finished : Bool
  m_task : List Op

/-- The root sentinel `co_root`: default constructor sets
`m_cur_index = 0`, `m_finished = true`, empty task. -/
def co_root : Frame := ⟨0, true, []⟩

/-- The whole per-thread machine state, plus the physically executing
continuation `cur`, a shared demo counter, and two ghost counters that
count the successful `resume` and `yield` calls performed so far. -/
structure Machine where
  co_list : List Frame
  handles : List Cont
  co_cur_index : Nat
  cur : Cont
  counter : Nat
  nresumes : Nat
  nyields : Nat

/-- Initial machine: registry holds only the root sentinel, its handle
slot never saved, cursor 0, and the root driver about to run. -/
def initMachine (driver : List Op) : Machine :=
  { co_list := [co_root]
    handles := [Cont.uninit]
    co_cur_index := 0
    cur := Cont.seq 0 driver
    counter := 0
    nresumes := 0
    nyields := 0 }

/-- Mark the coroutine at registry index `i` finished
(`m_finished = true`), leaving every other field alone. -/
def Machine.setFinished (m : Machine) (i : Nat) : Machine :=
  match m.co_list[i]? with
  | none => m
  | some f => { m with co_list := m.co_list.set i { f with m_finished := true } }

/-- `Coroutine::resume` of the coroutine at registry index `i`, called
from continuation `k` (the program point just after the `resume()` call,
which `swapcontext` saves).  Mirrors the source line by line: throw
`AlreadyFinished` if `m_finished`; set `co_cur_index = m_cur_index`;
`swapcontext(&co_list[m_cur_index-1]->m_handle, &m_handle)` saves `k`
into slot `i-1` and installs slot `i`'s stored context.  The error
branches return before any mutation, as the source throws before any
write. -/
def resume (i : Nat) (k : Cont) (m : Machine) : Except CoErr Machine :=
  match m.co_list[i]? with
  | none => .error .assertFailed
  | some f =>
    if f.m_finished then .error .alreadyFinished
    else
      match m.handles[i]? with
      | none => .error .assertFailed
      | some h =>
        .ok { m with
              co_cur_index := i
              handles := m.handles.set (i - 1) k
              cur := h
              nresumes := m.nresumes + 1 }

/-- `Coroutine::yield` (static), called from continuation `k`.  Mirrors
the source: throw `NotInCoroutine` when the registry holds only the
sentinel or the cursor is 0; otherwise `ori = co_cur_index`,
`co_cur_index -= 1`, and `swapcontext(&co_list[ori]->m_handle,
&co_list[ori-1]->m_handle)` saves `k` into slot `ori` and installs
slot `ori-1`'s stored context. -/
def coYield (k : Cont) (m : Machine) : Except CoErr Machine :=
  if m.co_list.length ≤ 1 ∨ m.co_cur_index = 0 then .error .notInCoroutine
  else
    match m.handles[m.co_cur_index - 1]? with
    | none => .error .assertFailed
    | some h =>
      .ok { m with
            co_cur_index := m.co_cur_index - 1
            handles := m.handles.set m.co_cur_index k
            cur := h
            nyields := m.nyields + 1 }

/-- The task constructor `Coroutine::Coroutine(task, stack_size)`,
executed by the creator whose continuation after the constructor is `k`.
Mirrors the source: `m_cur_index = co_list.size()` (evaluated before the
push), `getcontext`/`makecontext` build the fresh entry context (slot
content `Cont.start`), `uc_link` points at the previous entry's handle
(resolved at completion time in `step`), then `co_list.push_back(this)`
and `co_cur_index = m_cur_index - 1`. -/
def construct (task : List Op) (k : Cont) (m : Machine) : Except CoErr Machine :=
  if m.co_list.length < 1 then .error .assertFailed
  else
    let idx := m.co_list.length
    .ok { m with
          co_list := m.co_list ++ [⟨idx, false, task⟩]
          handles := m.handles ++ [Cont.start idx]
          co_cur_index := idx - 1
          cur := k }

/-- The destructor `Coroutine::~Coroutine` of the coroutine at registry
index `i`, executed by a frame whose continuation after it is `k`.  For
the root sentinel (`this == &co_root`) it does nothing; otherwise it
asserts the coroutine is the registry's last entry (`assertFailed` when
not — in the source a firing `assert`), pops it together with its handle
slot, and sets `co_cur_index = m_cur_index - 1`. -/
def destroy (i : Nat) (k : Cont) (m : Machine) : Except CoErr Machine :=
  if i = 0 then .ok { m with cur := k }
  else if m.co_list.length < 1 then .error .assertFailed
  else if i ≠ m.co_list.length - 1 then .error .assertFailed
  else
    .ok { m with
          co_list := m.co_list.dropLast
          handles := m.handles.dropLast
          co_cur_index := i - 1
          cur := k }

/-- Result of one machine step. -/
inductive StepRes where
  | next (m : Machine)
  | halt (m : Machine)
  | fault (e : CoErr) (m : Machine)

/-- A `std::logic_error` thrown by `resume`/`yield` inside a coroutine
unwinds the task closure and reaches the entry trampoline's
`catch (...)`, which sets `m_finished = true` and rethrows (leaving the
trampoline: fatal).  Asserts abort without unwinding. -/
def liftErr (i : Nat) (e : CoErr) (m : Machine) : StepRes :=
  if (e = CoErr.alreadyFinished ∨ e = CoErr.notInCoroutine) ∧ i ≠ 0 then
    .fault e (m.setFinished i)
  else
    .fault e m

/-- One small step of the machine: execute the next action of the
currently running continuation.
  * `Cont.uninit` running: a never-saved context was switched to (UB).
  * `Cont.start`: the `context_entry` prologue — its two asserts, then
    `co_current = co_list.back()` and the task body starts.
  * `Cont.seq 0 []`: the root driver returned — the program halts.
  * `Cont.seq (i+1) []`: the task of frame `i+1` returned —
    `context_entry` sets `m_finished = true` and falls through to
    `uc_link`, which is the handle slot of the previous registry entry;
    the cursor is not touched (the source defers it to the destructor).
  * `Cont.seq i (op :: rest)`: run `op` with continuation
    `Cont.seq i rest`. -/
def step (m : Machine) : StepRes :=
  match m.cur with
  | .uninit => .fault .uninitContext m
  | .start _ =>
    if m.co_list.length ≤ 1 then .fault .assertFailed m
    else if m.co_cur_index ≠ m.co_list.length - 1 then .fault .assertFailed m
    else
      match m.co_list.getLast? with
      | none => .fault .assertFailed m
      | some f => .next { m with cur := Cont.seq (m.co_list.length - 1) f.m_task }
  | .seq 0 [] => .halt m
  | .seq (i+1) [] =>
    match (m.setFinished (i + 1)).handles[i]? with
    | none => .fault .assertFailed (m.setFinished (i + 1))
    | some h => .next { m.setFinished (i + 1) with cur := h }
  | .seq i (op :: rest) =>
    match op with
    | .incr => .next { m with cur := Cont.seq i rest, counter := m.counter + 1 }
    | .doYield =>
      match coYield (Cont.seq i rest) m with
      | .ok m' => .next m'
      | .error e => liftErr i e m
    | .resumeAt j =>
      match resume j (Cont.seq i rest) m with
      | .ok m' => .next m'
      | .error e => liftErr i e m
    | .construct t =>
      match construct t (Cont.seq i rest) m with
      | .ok m' => .next m'
      | .error e => .fault e m
    | .destroyAt j =>
      match destroy j (Cont.seq i rest) m with
      | .ok m' => .next m'
      | .error e => .fault e m
    | .raiseErr =>
      if i = 0 then .fault .taskFailure m
      else .fault .taskFailure (m.setFinished i)

/-- Final result of running the machine with `fuel` steps. -/
inductive RunRes where
  | out (m : Machine)
  | halted (m : Machine)
  | faulted (e : CoErr) (m : Machine)

/-- Run the machine for at most `fuel` steps. -/
def run : Nat → Machine → RunRes
  | 0, m => .out m
  | fuel + 1, m =>
    match step m with
    | .next m' => run fuel m'
    | .halt m' => .halted m'
    | .fault e m' => .faulted e m'

/-- Single-step reachability between machine states. -/
def StepsTo (a b : Machine) : Prop := step a = .next b

/-- States reachable from the initial machine running `driver`. -/
def Reachable (driver : List Op) (m : Machine) : Prop :=
  Relation.ReflTransGen StepsTo (initMachine driver) m

/-! ### Helper lemmas about the operations -/

theorem coYield_ok_co_list {k : Cont} {m m' : Machine}
    (h : coYield k m = .ok m') : m'.co_list = m.co_list := by
  unfold coYield at h
  split at h
  · exact Except.noConfusion h
  · split at h
    · exact Except.noConfusion h
    · cases h; rfl

theorem resume_ok_co_list {i : Nat} {k : Cont} {m m' : Machine}
    (h : resume i k m = .ok m') : m'.co_list = m.co_list := by
  unfold resume at h
  split at h
  · exact Except.noConfusion h
  · split at h
    · exact Except.noConfusion h
    · split at h
      · exact Except.noConfusion h
      · cases h; rfl

theorem construct_ok_co_list {t : List Op} {k : Cont} {m m' : Machine}
    (h : construct t k m = .ok m') :
    m'.co_list = m.co_list ++ [⟨m.co_list.length, false, t⟩] := by
  unfold construct at h
  split at h
  · exact Except.noConfusion h
  · cases h; rfl

theorem destroy_ok_co_list {i : Nat} {k : Cont} {m m' : Machine}
    (h : destroy i k m = .ok m') :
    m'.co_list = m.co_list ∨
      (m'.co_list = m.co_list.dropLast ∧ 2 ≤ m.co_list.length) := by
  unfold destroy at h
  split at h
  · cases h; exact Or.inl rfl
  · split at h
    · exact Except.noConfusion h
    · split at h
      · exact Except.noConfusion h
      · cases h
        refine Or.inr ⟨rfl, ?_⟩
        omega

theorem setFinished_co_list_curIndex (m : Machine) (i j : Nat)
    {f f' : Frame} (hf : m.co_list[j]? = some f)
    (hf' : (m.setFinished i).co_list[j]? = some f') :
    f'.m_cur_index = f.m_cur_index := by
  unfold Machine.setFinished at hf'
  split at hf'
  · rw [hf] at hf'; cases hf'; rfl
  · rename_i g hg
    by_cases hij : i = j
    · subst hij
      have hlt : i < m.co_list.length := (List.getElem?_eq_some.mp hf).1
      rw [List.getElem?_set_self hlt] at hf'
      rw [hg] at hf
      cases hf; cases hf'; rfl
    · rw [List.getElem?_set_ne hij] at hf'
      rw [hf] at hf'; cases hf'; rfl

theorem setFinished_handles (m : Machine) (i : Nat) :
    (m.setFinished i).handles = m.handles := by
  unfold Machine.setFinished
  split <;> rfl

theorem setFinished_cursor (m : Machine) (i : Nat) :
    (m.setFinished i).co_cur_index = m.co_cur_index := by
  unfold Machine.setFinished
  split <;> rfl

/-- Every way a machine step changes the registry: unchanged, a
`setFinished`, a push of one frame, or a pop of the topmost frame
(and then the registry had at least two entries). -/
theorem step_next_co_list {m m' : Machine} (h : step m = .next m') :
    m'.co_list = m.co_list
    ∨ (∃ i, m'.co_list = (m.setFinished i).co_list)
    ∨ (∃ fr, m'.co_list = m.co_list ++ [fr])
    ∨ (m'.co_list = m.co_list.dropLast ∧ 2 ≤ m.co_list.length) := by
  unfold step at h
  split at h
  · exact StepRes.noConfusion h
  · split at h
    · exact StepRes.noConfusion h
    · split at h
      · exact StepRes.noConfusion h
      · split at h
        · exact StepRes.noConfusion h
        · cases h; exact Or.inl rfl
  · exact StepRes.noConfusion h
  · split at h
    · exact StepRes.noConfusion h
    · rename_i i hcur hx hval hsome
      cases h
      refine Or.inr (Or.inl ⟨i + 1, ?_⟩)
      rfl
  · rename_i i op rest
    split at h
    · cases h; exact Or.inl rfl
    · split at h
      · rename_i m'' hok
        cases h
        exact Or.inl (coYield_ok_co_list hok)
      · unfold liftErr at h
        split at h <;> exact StepRes.noConfusion h
    · split at h
      · rename_i m'' hok
        cases h
        exact Or.inl (resume_ok_co_list hok)
      · unfold liftErr at h
        split at h <;> exact StepRes.noConfusion h
    · split at h
      · rename_i m'' hok
        cases h
        exact Or.inr (Or.inr (Or.inl ⟨_, construct_ok_co_list hok⟩))
      · exact StepRes.noConfusion h
    · split at h
      · rename_i m'' hok
        cases h
        rcases destroy_ok_co_list hok with h1 | h1
        · exact Or.inl h1
        · exact Or.inr (Or.inr (Or.inr h1))
      · exact StepRes.noConfusion h
    · split at h <;> exact StepRes.noConfusion h

/-! ### C2: resume on a finished coroutine -/

/-- C2: for every coroutine whose `m_finished` flag is true, `resume()`
fails with the `AlreadyFinished` error (the `throw` precedes every write
in the source, so no context switch happens and no state — coroutine
fields, registry, cursor — is mutated; in this embedding the error
return carries no changed machine), and the call fails the same way for
every caller continuation, so repeating it fails identically. -/
theorem resume_finished_fails_alreadyFinished
    (m : Machine) (i : Nat) (f : Frame)
    (hf : m.co_list[i]? = some f) (hfin : f.m_finished = true) :
    ∀ k, resume i k m = .error .alreadyFinished := by
  intro k
  unfold resume
  rw [hf]
  simp [hfin]

/-- A machine whose registry holds the root sentinel and one already
finished coroutine. -/
def finishedDemoM : Machine :=
  { co_list := [co_root, ⟨1, true, []⟩]
    handles := [Cont.uninit, Cont.start 1]
    co_cur_index := 0
    cur := Cont.seq 0 []
    counter := 0
    nresumes := 0
    nyields := 0 }

/-- Witness for C2 at a concrete finished coroutine. -/
theorem resume_finished_fails_alreadyFinished_witness :
    resume 1 (Cont.seq 0 []) finishedDemoM = .error .alreadyFinished :=
  resume_finished_fails_alreadyFinished finishedDemoM 1 ⟨1, true, []⟩ rfl rfl
    (Cont.seq 0 [])

/-! ### C6: yield at the root level -/

/-- C6: calling `yield()` when the registry holds only the root
sentinel, or when the current-index cursor already refers to the root
(index 0), fails with the `NotInCoroutine` error; the `throw` precedes
the `swapcontext`, so no context switch is performed and the state is
untouched. -/
theorem yield_at_root_fails_notInCoroutine
    (m : Machine) (h : m.co_list.length ≤ 1 ∨ m.co_cur_index = 0) :
    ∀ k, coYield k m = .error .notInCoroutine := by
  intro k
  unfold coYield
  rw [if_pos h]

/-- Witness for C6 on the freshly initialized machine, where both error
conditions hold. -/
theorem yield_at_root_fails_notInCoroutine_witness :
    coYield (Cont.seq 0 []) (initMachine []) = .error .notInCoroutine :=
  yield_at_root_fails_notInCoroutine (initMachine []) (Or.inl (by decide))
    (Cont.seq 0 [])

/-! ### C9: destruction is topmost-only, hence LIFO -/

/-- C9: the destructor of a (non-root) coroutine requires the coroutine
to be the topmost (last) registry entry, and then pops it and its
context/stack and moves the cursor to `m_cur_index - 1`; destroying a
coroutine that is not the topmost registry entry fails (the source's
`assert(co_list.back() == this)` fires, modelled as `assertFailed`), so
registered coroutines are destroyed in strict LIFO order. -/
theorem destroy_requires_topmost_lifo
    (m : Machine) (i : Nat) (k : Cont) (hi : i ≠ 0) :
    (i = m.co_list.length - 1 → 1 ≤ m.co_list.length →
      destroy i k m = .ok { m with
        co_list := m.co_list.dropLast
        handles := m.handles.dropLast
        co_cur_index := i - 1
        cur := k })
    ∧ (i ≠ m.co_list.length - 1 → destroy i k m = .error .assertFailed) := by
  constructor
  · intro htop hlen
    unfold destroy
    rw [if_neg hi, if_neg (by omega), if_neg (not_not.mpr htop)]
  · intro hne
    unfold destroy
    rw [if_neg hi]
    by_cases hl : m.co_list.length < 1
    · rw [if_pos hl]
    · rw [if_neg hl, if_pos hne]

/-- A machine with two live coroutines nested above the root. -/
def twoCoroM : Machine :=
  { co_list := [co_root, ⟨1, false, []⟩, ⟨2, false, []⟩]
    handles := [Cont.uninit, Cont.seq 1 [], Cont.start 2]
    co_cur_index := 1
    cur := Cont.seq 1 []
    counter := 0
    nresumes := 0
    nyields := 0 }

/-- Witness for C9: in a registry `[root, co1, co2]`, destroying the
topmost `co2` succeeds and pops it, while destroying the non-topmost
`co1` fails. -/
theorem destroy_requires_topmost_lifo_witness :
    destroy 2 (Cont.seq 1 []) twoCoroM = .ok { twoCoroM with
        co_list := twoCoroM.co_list.dropLast
        handles := twoCoroM.handles.dropLast
        co_cur_index := 1
        cur := Cont.seq 1 [] }
    ∧ destroy 1 (Cont.seq 1 []) twoCoroM = .error .assertFailed :=
  ⟨(destroy_requires_topmost_lifo twoCoroM 2 (Cont.seq 1 []) (by decide)).1
      (by decide) (by decide),
   (destroy_requires_topmost_lifo twoCoroM 1 (Cont.seq 1 []) (by decide)).2
      (by decide)⟩

/-! ### C5: the frame index recorded at construction -/

theorem getElem?_dropLast_of_lt {α : Type} (l : List α) (j : Nat)
    (h : j + 1 < l.length) : l.dropLast[j]? = l[j]? := by
  simp [List.getElem?_dropLast]
  omega

/-- C5 counterexample: the constructor does not assign
`frame_index = registry.length - 1` evaluated before the push.
Constructing the first coroutine from the root: the registry length
before the push is 1, so the claim's formula gives 0, but the stored
`m_cur_index` is 1 (the source assigns `co_list.size()`, not
`co_list.size() - 1`, before the push). -/
theorem frame_index_formula_cex :
    ∃ m', construct [] (Cont.seq 0 []) (initMachine []) = .ok m'
      ∧ (∃ f, m'.co_list[1]? = some f ∧ f.m_cur_index = 1)
      ∧ (initMachine []).co_list.length - 1 = 0
      ∧ ¬ (1 : Nat) = 0 :=
  ⟨_, rfl, ⟨_, rfl, rfl⟩, rfl, by decide⟩

/-- C5 amended: the constructor assigns
`frame_index = registry.length` evaluated before the push (equivalently
`registry.length - 1` evaluated after the push); this value equals the
index the coroutine occupies in the registry, and no machine step ever
changes the recorded `m_cur_index` of a frame that stays at its
registry position. -/
theorem frame_index_prepush_length_and_immutable :
    (∀ (m : Machine) (t : List Op) (k : Cont), 1 ≤ m.co_list.length →
      ∃ m', construct t k m = .ok m'
        ∧ m'.co_list.length = m.co_list.length + 1
        ∧ m'.co_list[m.co_list.length]? = some ⟨m.co_list.length, false, t⟩
        ∧ (⟨m.co_list.length, false, t⟩ : Frame).m_cur_index
            = m'.co_list.length - 1)
    ∧ (∀ m m', step m = .next m' →
        ∀ (j : Nat) (f f' : Frame),
          m.co_list[j]? = some f → m'.co_list[j]? = some f' →
          f'.m_cur_index = f.m_cur_index) := by
  constructor
  · intro m t k hlen
    refine ⟨{ m with
        co_list := m.co_list ++ [⟨m.co_list.length, false, t⟩]
        handles := m.handles ++ [Cont.start m.co_list.length]
        co_cur_index := m.co_list.length - 1
        cur := k }, ?_, ?_, ?_, ?_⟩
    · unfold construct
      rw [if_neg (by omega)]
    · simp
    · simp
    · simp
  · intro m m' hst j f f' hf hf'
    rcases step_next_co_list hst with h | ⟨i, h⟩ | ⟨fr, h⟩ | ⟨h, hlen2⟩
    · rw [h, hf] at hf'; cases hf'; rfl
    · rw [h] at hf'
      exact setFinished_co_list_curIndex m i j hf hf'
    · rw [h] at hf'
      have hj : j < m.co_list.length := (List.getElem?_eq_some.mp hf).1
      rw [List.getElem?_append, if_pos hj, hf] at hf'
      cases hf'; rfl
    · rw [h] at hf'
      have hj : j < m.co_list.dropLast.length :=
        (List.getElem?_eq_some.mp hf').1
      rw [List.length_dropLast] at hj
      rw [getElem?_dropLast_of_lt _ _ (by omega), hf] at hf'
      cases hf'; rfl

/-- Witness for the amended C5 at a concrete machine: constructing a
coroutine from the two-frame machine records `m_cur_index = 2`, the
index it occupies. -/
theorem frame_index_prepush_length_and_immutable_witness :
    ∃ m', construct [Op.incr] (Cont.seq 1 []) finishedDemoM = .ok m'
      ∧ m'.co_list.length = finishedDemoM.co_list.length + 1
      ∧ m'.co_list[finishedDemoM.co_list.length]?
          = some ⟨finishedDemoM.co_list.length, false, [Op.incr]⟩
      ∧ (⟨finishedDemoM.co_list.length, false, [Op.incr]⟩ : Frame).m_cur_index
          = m'.co_list.length - 1 :=
  frame_index_prepush_length_and_immutable.1 finishedDemoM [Op.incr]
    (Cont.seq 1 []) (by decide)

/-! ### C1: yield unwinds exactly one level, to the resumer -/

/-- C1: `resume()` on the coroutine at registry index `i` saves the
resumer's continuation `k` into handle slot `i - 1` and sets the cursor
to `i`; a `yield()` issued next (from continuation `ksub`) decrements
the cursor by exactly one, saves the yielding frame's state `ksub` into
slot `i`, and switches execution to exactly `k` — the continuation of
whoever directly invoked the most recent `resume()` — regardless of
which registry index `k` belongs to (so not necessarily the frame
`registry[current_index - 1]` when nesting is asymmetric). -/
theorem yield_switches_one_level_to_resumer
    (m : Machine) (i : Nat) (k ksub : Cont) (f : Frame) (h : Cont)
    (hf : m.co_list[i]? = some f) (hfin : f.m_finished = false)
    (hh : m.handles[i]? = some h)
    (hlen : 1 < m.co_list.length) (hi : i ≠ 0) :
    ∃ m₁ m₂, resume i k m = .ok m₁
      ∧ m₁.co_cur_index = i
      ∧ m₁.handles[i - 1]? = some k
      ∧ coYield ksub m₁ = .ok m₂
      ∧ m₂.co_cur_index = i - 1
      ∧ m₂.handles[i]? = some ksub
      ∧ m₂.cur = k := by
  have hilen : i < m.handles.length := (List.getElem?_eq_some.mp hh).1
  refine ⟨{ m with co_cur_index := i, handles := m.handles.set (i - 1) k, cur := h, nresumes := m.nresumes + 1 }, ?_⟩
  have hk1 : (m.handles.set (i - 1) k)[i - 1]? = some k :=
    List.getElem?_set_self (by omega)
  refine ⟨{ co_list := m.co_list, handles := (m.handles.set (i - 1) k).set i ksub, co_cur_index := i - 1, cur := k, counter := m.counter, nresumes := m.nresumes + 1, nyields := m.nyields + 1 }, ?_, rfl, hk1, ?_, rfl, ?_, rfl⟩
  · unfold resume
    rw [hf]
    dsimp only
    rw [if_neg (by simp [hfin]), hh]
  · unfold coYield
    dsimp only
    rw [if_neg (by push_neg; exact ⟨by omega, hi⟩), hk1]
  · exact List.getElem?_set_self (by simp [List.length_set]; omega)

/-- A machine with three coroutines above the root, where frame 3 is
running (an asymmetric nesting situation). -/
def asymM : Machine :=
  { co_list := [co_root, ⟨1, false, []⟩, ⟨2, false, []⟩, ⟨3, false, []⟩]
    handles := [Cont.uninit, Cont.seq 1 [], Cont.seq 2 [], Cont.seq 3 []]
    co_cur_index := 3
    cur := Cont.seq 3 [Op.resumeAt 2]
    counter := 0
    nresumes := 0
    nyields := 0 }

/-- Witness for C1: frame 3 resumes frame 2; when frame 2 yields,
control goes back to frame 3's continuation, even though the registry's
previous entry relative to the cursor is frame 1. -/
theorem yield_switches_one_level_to_resumer_witness :
    (∃ m₁ m₂, resume 2 (Cont.seq 3 [Op.incr]) asymM = .ok m₁
      ∧ m₁.co_cur_index = 2
      ∧ m₁.handles[2 - 1]? = some (Cont.seq 3 [Op.incr])
      ∧ coYield (Cont.seq 2 [Op.doYield]) m₁ = .ok m₂
      ∧ m₂.co_cur_index = 2 - 1
      ∧ m₂.handles[2]? = some (Cont.seq 2 [Op.doYield])
      ∧ m₂.cur = Cont.seq 3 [Op.incr])
    ∧ frameOf (Cont.seq 3 [Op.incr]) ≠ 2 - 1 :=
  ⟨yield_switches_one_level_to_resumer asymM 2 (Cont.seq 3 [Op.incr])
      (Cont.seq 2 [Op.doYield]) ⟨2, false, []⟩ (Cont.seq 2 []) rfl rfl rfl
      (by decide) (by decide),
   by decide⟩

/-! ### C3: what the entry trampoline does on task return -/

/-- C3 counterexample: driving a coroutine with an empty task to
completion (construct, one resume, the trampoline runs and the task
returns) halts with the current-index cursor still equal to 1, the
finished coroutine's own index.  An ordinary `yield` from cursor 1
would have set the cursor to 0, so the trampoline does NOT perform
"the same handling of the current-index cursor" as a yield: the source
leaves the cursor update to the destructor. -/
theorem completion_skips_cursor_decrement_cex :
    ∃ m, run 5 (initMachine [Op.construct [], Op.resumeAt 1]) = .halted m
      ∧ (m.co_list[1]?).map Frame.m_finished = some true
      ∧ m.co_cur_index = 1
      ∧ ¬ m.co_cur_index = 0 :=
  ⟨_, rfl, rfl, rfl, by decide⟩

/-- C3 amended: when the task of the coroutine at registry index
`i + 1` returns, the entry trampoline first sets `m_finished = true`
and then switches execution to the context stored in handle slot `i`
(the same slot an ordinary yield from cursor `i + 1` would restore),
but unlike a yield it saves no state and leaves the current-index
cursor unchanged (the destructor updates it later).  The transition is
terminal: any later `resume()` of that coroutine fails with
`AlreadyFinished`. -/
theorem completion_sets_finished_then_switches
    (m : Machine) (i : Nat) (h : Cont)
    (hcur : m.cur = Cont.seq (i + 1) [])
    (hlt : i + 1 < m.co_list.length)
    (hh : m.handles[i]? = some h) :
    step m = .next { m.setFinished (i + 1) with cur := h }
    ∧ ((m.setFinished (i + 1)).co_list[i + 1]?).map Frame.m_finished
        = some true
    ∧ (m.setFinished (i + 1)).co_cur_index = m.co_cur_index
    ∧ (m.setFinished (i + 1)).handles = m.handles
    ∧ ∀ kr, resume (i + 1) kr { m.setFinished (i + 1) with cur := h }
        = .error .alreadyFinished := by
  have hf : m.co_list[i + 1]? = some m.co_list[i + 1] :=
    List.getElem?_eq_getElem hlt
  have hfin1 : ((m.setFinished (i + 1)).co_list[i + 1]?).map Frame.m_finished
      = some true := by
    unfold Machine.setFinished
    rw [hf]
    dsimp only
    rw [List.getElem?_set_self hlt]
    rfl
  refine ⟨?_, hfin1, setFinished_cursor m (i + 1), setFinished_handles m (i + 1), ?_⟩
  · unfold step
    rw [hcur]
    dsimp only
    rw [setFinished_handles, hh]
  · intro kr
    unfold resume
    rcases hx : (m.setFinished (i + 1)).co_list[i + 1]? with _ | f
    · rw [hx] at hfin1; simp at hfin1
    · rw [hx] at hfin1
      simp at hfin1
      dsimp only
      rw [if_pos hfin1]

/-- A machine in which coroutine 1's task has just returned (the
trampoline is about to run the completion protocol). -/
def doneTaskM : Machine :=
  { co_list := [co_root, ⟨1, false, []⟩]
    handles := [Cont.seq 0 [Op.incr], Cont.start 1]
    co_cur_index := 1
    cur := Cont.seq 1 []
    counter := 0
    nresumes := 1
    nyields := 0 }

/-- Witness for the amended C3 at a concrete machine. -/
theorem completion_sets_finished_then_switches_witness :
    step doneTaskM = .next { doneTaskM.setFinished 1 with cur := Cont.seq 0 [Op.incr] }
    ∧ ((doneTaskM.setFinished 1).co_list[1]?).map Frame.m_finished = some true
    ∧ (doneTaskM.setFinished 1).co_cur_index = doneTaskM.co_cur_index
    ∧ (doneTaskM.setFinished 1).handles = doneTaskM.handles
    ∧ ∀ kr, resume 1 kr { doneTaskM.setFinished 1 with cur := Cont.seq 0 [Op.incr] }
        = .error .alreadyFinished :=
  completion_sets_finished_then_switches doneTaskM 0 (Cont.seq 0 [Op.incr])
    rfl (by decide) rfl

/-! ### C4: does the cursor always name the executing frame? -/

/-- C4 counterexample: a reachable instant at which
`registry[current_index]` is not the frame that is executing.  After a
coroutine's task completes (construct, resume, one increment, task
returns), control is back in the root frame (`frameOf m.cur = 0`) while
the cursor still names the finished coroutine's index 1. -/
theorem cursor_points_at_nonexecuting_frame_cex :
    ∃ m, run 5 (initMachine [Op.construct [Op.incr], Op.resumeAt 1]) = .out m
      ∧ (m.co_list[1]?).map Frame.m_finished = some true
      ∧ m.co_cur_index = 1
      ∧ frameOf m.cur = 0
      ∧ ¬ m.co_cur_index = frameOf m.cur :=
  ⟨_, rfl, rfl, rfl, rfl, by decide⟩

/-- C4 amended: the cursor/executing-frame correspondence is maintained
by the individual control transfers, not at every instant.  (a) After a
successful `resume` of frame `i` whose handle slot stores a context of
frame `i`, the cursor equals the executing frame.  (b) After a
successful `yield` whose restored slot stores a context of frame
`cursor - 1`, the cursor equals the executing frame.  (c) The
constructor performs no switch and leaves the cursor at
`frame_index - 1`; when the creator was the topmost registry entry
(the well-nested case) this is exactly the creator's frame and the
cursor is unchanged.  After a task completes the correspondence is
broken until the destructor realigns the cursor. -/
theorem cursor_tracks_executing_frame_stepwise :
    (∀ (m : Machine) (i : Nat) (k : Cont) (f : Frame) (h : Cont) (m' : Machine),
      m.co_list[i]? = some f → f.m_finished = false →
      m.handles[i]? = some h → frameOf h = i →
      resume i k m = .ok m' → m'.co_cur_index = frameOf m'.cur)
    ∧ (∀ (m : Machine) (k : Cont) (h : Cont) (m' : Machine),
      m.handles[m.co_cur_index - 1]? = some h →
      frameOf h = m.co_cur_index - 1 →
      coYield k m = .ok m' → m'.co_cur_index = frameOf m'.cur)
    ∧ (∀ (m : Machine) (t : List Op) (k : Cont) (m' : Machine),
      1 ≤ m.co_list.length → frameOf k = m.co_cur_index →
      m.co_cur_index = m.co_list.length - 1 →
      construct t k m = .ok m' →
      m'.co_cur_index = frameOf m'.cur ∧ m'.co_cur_index = m.co_cur_index) := by
  refine ⟨?_, ?_, ?_⟩
  · intro m i k f h m' hf hfin hh hfr hok
    have hcomp : resume i k m = .ok { m with co_cur_index := i, handles := m.handles.set (i - 1) k, cur := h, nresumes := m.nresumes + 1 } := by
      unfold resume
      rw [hf]
      dsimp only
      rw [if_neg (by simp [hfin]), hh]
    rw [hcomp] at hok
    cases hok
    exact hfr.symm
  · intro m k h m' hh hfr hok
    unfold coYield at hok
    split at hok
    · exact Except.noConfusion hok
    · rw [hh] at hok
      cases hok
      exact hfr.symm
  · intro m t k m' hlen hk htop hok
    unfold construct at hok
    rw [if_neg (by omega)] at hok
    cases hok
    constructor
    · show m.co_list.length - 1 = frameOf k
      omega
    · show m.co_list.length - 1 = m.co_cur_index
      omega

/-- Witness for the amended C4 exercising all three parts at concrete
machines. -/
theorem cursor_tracks_executing_frame_stepwise_witness :
    ({ asymM with co_cur_index := 2, handles := [Cont.uninit, Cont.seq 3 [], Cont.seq 2 [], Cont.seq 3 []], cur := Cont.seq 2 [], nresumes := 1 } : Machine).co_cur_index
      = frameOf ({ asymM with co_cur_index := 2, handles := [Cont.uninit, Cont.seq 3 [], Cont.seq 2 [], Cont.seq 3 []], cur := Cont.seq 2 [], nresumes := 1 } : Machine).cur
    ∧ ({ twoCoroM with co_cur_index := 0, cur := Cont.uninit, nyields := 1 } : Machine).co_cur_index
      = frameOf ({ twoCoroM with co_cur_index := 0, cur := Cont.uninit, nyields := 1 } : Machine).cur
    ∧ (({ co_list := [co_root, ⟨1, false, [Op.incr]⟩], handles := [Cont.uninit, Cont.start 1], co_cur_index := 0, cur := Cont.seq 0 [], counter := 0, nresumes := 0, nyields := 0 } : Machine).co_cur_index
      = frameOf ({ co_list := [co_root, ⟨1, false, [Op.incr]⟩], handles := [Cont.uninit, Cont.start 1], co_cur_index := 0, cur := Cont.seq 0 [], counter := 0, nresumes := 0, nyields := 0 } : Machine).cur
      ∧ ({ co_list := [co_root, ⟨1, false, [Op.incr]⟩], handles := [Cont.uninit, Cont.start 1], co_cur_index := 0, cur := Cont.seq 0 [], counter := 0, nresumes := 0, nyields := 0 } : Machine).co_cur_index
        = (initMachine []).co_cur_index) :=
  ⟨cursor_tracks_executing_frame_stepwise.1 asymM 2 (Cont.seq 3 [])
      ⟨2, false, []⟩ (Cont.seq 2 []) _ rfl rfl rfl rfl rfl,
   cursor_tracks_executing_frame_stepwise.2.1 twoCoroM (Cont.seq 1 [])
      Cont.uninit _ rfl rfl rfl,
   cursor_tracks_executing_frame_stepwise.2.2 (initMachine []) [Op.incr]
      (Cont.seq 0 []) _ (by decide) rfl rfl rfl⟩

/-! ### C7: a task that raises a failure -/

/-- C7: evaluating the code at the failing input.  A coroutine whose
task raises is driven by one `resume`: the trampoline's `catch` marks
`m_finished = true` before the failure propagates, but the failure then
leaves `context_entry` on the coroutine's own stack — the run faults
inside frame 1 (`frameOf m.cur = 1`), and the resumer's continuation
`Cont.seq 0 []` is still parked unread in handle slot 0, so the failure
never surfaces at the `resume()` call site in frame 0 as the spec
intends. -/
theorem task_failure_marks_finished_and_faults :
    ∃ m, run 4 (initMachine [Op.construct [Op.raiseErr], Op.resumeAt 1])
        = .faulted CoErr.taskFailure m
      ∧ (m.co_list[1]?).map Frame.m_finished = some true
      ∧ m.cur = Cont.seq 1 [Op.raiseErr]
      ∧ m.handles[0]? = some (Cont.seq 0 [])
      ∧ ¬ frameOf m.cur = 0 :=
  ⟨_, rfl, rfl, rfl, rfl, by decide⟩

/-! ### C10: the root sentinel -/

/-- The root sentinel at registry index 0 is finished. -/
def RootFin (m : Machine) : Prop :=
  (m.co_list[0]?).map Frame.m_finished = some true

theorem setFinished_rootFin (m : Machine) (i : Nat) (hP : RootFin m) :
    RootFin (m.setFinished i) := by
  unfold RootFin at *
  unfold Machine.setFinished
  split
  · exact hP
  · rename_i f hf
    by_cases h0 : i = 0
    · subst h0
      have hlt : (0 : Nat) < m.co_list.length := (List.getElem?_eq_some.mp hf).1
      rw [List.getElem?_set_self hlt]
      rfl
    · rw [List.getElem?_set_ne h0]
      exact hP

theorem step_preserves_rootFin {m m' : Machine}
    (hst : step m = .next m') (hP : RootFin m) : RootFin m' := by
  rcases step_next_co_list hst with h | ⟨i, h⟩ | ⟨fr, h⟩ | ⟨h, hlen⟩
  · unfold RootFin at *
    rw [h]
    exact hP
  · have h2 := setFinished_rootFin m i hP
    unfold RootFin at *
    rw [h]
    exact h2
  · unfold RootFin at *
    have h0 : (0 : Nat) < m.co_list.length := by
      by_contra hc
      rw [List.getElem?_eq_none (by omega)] at hP
      simp at hP
    rw [h, List.getElem?_append, if_pos h0]
    exact hP
  · unfold RootFin at *
    rw [h, getElem?_dropLast_of_lt _ _ (by omega)]
    exact hP

theorem reachable_rootFin (d : List Op) (m : Machine)
    (hr : Reachable d m) : RootFin m := by
  induction hr with
  | refl => rfl
  | tail hab hbc ih => exact step_preserves_rootFin hbc ih

/-- C10: the root sentinel at registry index 0 is constructed with
`m_finished = true` and keeps it in every reachable state, so
`is_finished()` on the root always reports true and `resume()` on the
root sentinel always fails with the same `AlreadyFinished` error as
resuming a finished coroutine (the throw precedes the `swapcontext`, so
no context switch is performed). -/
theorem root_sentinel_finished_resume_fails
    (d : List Op) (m : Machine) (hr : Reachable d m) :
    co_root.m_finished = true
    ∧ (m.co_list[0]?).map Frame.m_finished = some true
    ∧ ∀ k, resume 0 k m = .error .alreadyFinished := by
  have hP := reachable_rootFin d m hr
  refine ⟨rfl, hP, ?_⟩
  intro k
  unfold RootFin at hP
  rcases hf : m.co_list[0]? with _ | f
  · rw [hf] at hP
    simp at hP
  · rw [hf] at hP
    simp at hP
    unfold resume
    rw [hf]
    dsimp only
    rw [if_pos hP]

/-- Witness for C10 at the freshly initialized machine. -/
theorem root_sentinel_finished_resume_fails_witness :
    resume 0 (Cont.seq 0 [Op.incr]) (initMachine [Op.incr])
      = .error .alreadyFinished :=
  (root_sentinel_finished_resume_fails [Op.incr] (initMachine [Op.incr])
    Relation.ReflTransGen.refl).2.2 (Cont.seq 0 [Op.incr])

/-! ### C8: N yields need N+1 resumes -/

theorem run_step_next {m m' : Machine} (f : Nat) (h : step m = .next m') :
    run (f + 1) m = run f m' := by
  show (match step m with
    | StepRes.next m2 => run f m2
    | StepRes.halt m2 => RunRes.halted m2
    | StepRes.fault e m2 => RunRes.faulted e m2) = run f m'
  rw [h]

theorem run_step_halt {m m' : Machine} (f : Nat) (h : step m = .halt m') :
    run (f + 1) m = .halted m' := by
  show (match step m with
    | StepRes.next m2 => run f m2
    | StepRes.halt m2 => RunRes.halted m2
    | StepRes.fault e m2 => RunRes.faulted e m2) = .halted m'
  rw [h]

theorem run_step_fault {m m' : Machine} {e : CoErr} (f : Nat)
    (h : step m = .fault e m') :
    run (f + 1) m = .faulted e m' := by
  show (match step m with
    | StepRes.next m2 => run f m2
    | StepRes.halt m2 => RunRes.halted m2
    | StepRes.fault e2 m2 => RunRes.faulted e2 m2) = .faulted e m'
  rw [h]

theorem run_halted_succ {x : Machine} :
    ∀ (f : Nat) (m : Machine), run f m = .halted x → run (f + 1) m = .halted x := by
  intro f
  induction f with
  | zero =>
    intro m h
    exact RunRes.noConfusion h
  | succ f ih =>
    intro m h
    rcases hs : step m with m' | m' | ⟨e, m'⟩
    · rw [run_step_next f hs] at h
      rw [run_step_next (f + 1) hs]
      exact ih m' h
    · rw [run_step_halt f hs] at h
      rw [run_step_halt (f + 1) hs]
      exact h
    · rw [run_step_fault f hs] at h
      exact RunRes.noConfusion h

theorem run_halted_le {m x : Machine} {f g : Nat} (hle : f ≤ g)
    (hf : run f m = .halted x) : run g m = .halted x := by
  induction hle with
  | refl => exact hf
  | step h ih => exact run_halted_succ _ m ih

/-- The machine state in which the single coroutine (frame 1, recorded
task `t0`) is running with `j` pending `yield` calls left in its task,
the root's saved continuation has `rs` driver operations left, and the
ghost counters read `c`, `y`, `r`. -/
def taskM (t0 : List Op) (j : Nat) (s1 : Cont) (rs : List Op)
    (c y r : Nat) : Machine :=
  { co_list := [co_root, ⟨1, false, t0⟩]
    handles := [Cont.seq 0 rs, s1]
    co_cur_index := 1
    cur := Cont.seq 1 (List.replicate j Op.doYield)
    counter := c
    nresumes := r
    nyields := y }

/-- Running the coroutine's remaining `j` yields against exactly `j`
pending resumes drives it to completion: the run halts with the frame
finished and the counters advanced by `j` yields and `j` resumes. -/
theorem drive_done (t0 : List Op) :
    ∀ (j : Nat) (s1 : Cont) (c y r : Nat),
      run (2 * j + 2) (taskM t0 j s1 (List.replicate j (Op.resumeAt 1)) c y r)
      = .halted { co_list := [co_root, ⟨1, true, t0⟩], handles := [Cont.seq 0 [], if j = 0 then s1 else Cont.seq 1 []], co_cur_index := 1, cur := Cont.seq 0 [], counter := c, nresumes := r + j, nyields := y + j } := by
  intro j
  induction j with
  | zero =>
    intro s1 c y r
    rfl
  | succ j ih =>
    intro s1 c y r
    have hA : step (taskM t0 (j + 1) s1 (List.replicate (j + 1) (Op.resumeAt 1)) c y r) = .next { co_list := [co_root, ⟨1, false, t0⟩], handles := [Cont.seq 0 (List.replicate (j + 1) (Op.resumeAt 1)), Cont.seq 1 (List.replicate j Op.doYield)], co_cur_index := 0, cur := Cont.seq 0 (List.replicate (j + 1) (Op.resumeAt 1)), counter := c, nresumes := r, nyields := y + 1 } := rfl
    have hB : step ({ co_list := [co_root, ⟨1, false, t0⟩], handles := [Cont.seq 0 (List.replicate (j + 1) (Op.resumeAt 1)), Cont.seq 1 (List.replicate j Op.doYield)], co_cur_index := 0, cur := Cont.seq 0 (List.replicate (j + 1) (Op.resumeAt 1)), counter := c, nresumes := r, nyields := y + 1 } : Machine) = .next (taskM t0 j (Cont.seq 1 (List.replicate j Op.doYield)) (List.replicate j (Op.resumeAt 1)) c (y + 1) (r + 1)) := rfl
    rw [show 2 * (j + 1) + 2 = 2 * j + 2 + 1 + 1 from by omega,
      run_step_next _ hA, run_step_next _ hB,
      ih (Cont.seq 1 (List.replicate j Op.doYield)) c (y + 1) (r + 1)]
    have h1 : (if j = 0 then Cont.seq 1 (List.replicate j Op.doYield) else Cont.seq 1 []) = Cont.seq 1 [] := by
      cases j <;> rfl
    rw [h1, if_neg (show ¬ (j + 1 = 0) from by omega),
      show r + 1 + j = r + (j + 1) from by omega,
      show y + 1 + j = y + (j + 1) from by omega]

/-- Running the coroutine against fewer resumes than its remaining
yields leaves it unfinished: all resumes are consumed, one more yield
than resumes has happened, and the root driver runs out of operations. -/
theorem drive_short (t0 : List Op) :
    ∀ (kk : Nat) (j : Nat) (s1 : Cont) (c y r : Nat), kk < j →
      run (2 * kk + 2) (taskM t0 j s1 (List.replicate kk (Op.resumeAt 1)) c y r)
      = .halted { co_list := [co_root, ⟨1, false, t0⟩], handles := [Cont.seq 0 [], Cont.seq 1 (List.replicate (j - (kk + 1)) Op.doYield)], co_cur_index := 0, cur := Cont.seq 0 [], counter := c, nresumes := r + kk, nyields := y + kk + 1 } := by
  intro kk
  induction kk with
  | zero =>
    intro j s1 c y r hlt
    obtain ⟨j', rfl⟩ : ∃ j', j = j' + 1 := ⟨j - 1, by omega⟩
    have hA : step (taskM t0 (j' + 1) s1 (List.replicate 0 (Op.resumeAt 1)) c y r) = .next { co_list := [co_root, ⟨1, false, t0⟩], handles := [Cont.seq 0 [], Cont.seq 1 (List.replicate j' Op.doYield)], co_cur_index := 0, cur := Cont.seq 0 [], counter := c, nresumes := r, nyields := y + 1 } := rfl
    rw [show 2 * 0 + 2 = 1 + 1 from rfl, run_step_next _ hA]
    rfl
  | succ kk ih =>
    intro j s1 c y r hlt
    obtain ⟨j', rfl⟩ : ∃ j', j = j' + 1 := ⟨j - 1, by omega⟩
    have hA : step (taskM t0 (j' + 1) s1 (List.replicate (kk + 1) (Op.resumeAt 1)) c y r) = .next { co_list := [co_root, ⟨1, false, t0⟩], handles := [Cont.seq 0 (List.replicate (kk + 1) (Op.resumeAt 1)), Cont.seq 1 (List.replicate j' Op.doYield)], co_cur_index := 0, cur := Cont.seq 0 (List.replicate (kk + 1) (Op.resumeAt 1)), counter := c, nresumes := r, nyields := y + 1 } := rfl
    have hB : step ({ co_list := [co_root, ⟨1, false, t0⟩], handles := [Cont.seq 0 (List.replicate (kk + 1) (Op.resumeAt 1)), Cont.seq 1 (List.replicate j' Op.doYield)], co_cur_index := 0, cur := Cont.seq 0 (List.replicate (kk + 1) (Op.resumeAt 1)), counter := c, nresumes := r, nyields := y + 1 } : Machine) = .next (taskM t0 j' (Cont.seq 1 (List.replicate j' Op.doYield)) (List.replicate kk (Op.resumeAt 1)) c (y + 1) (r + 1)) := rfl
    rw [show 2 * (kk + 1) + 2 = 2 * kk + 2 + 1 + 1 from by omega,
      run_step_next _ hA, run_step_next _ hB,
      ih j' (Cont.seq 1 (List.replicate j' Op.doYield)) c (y + 1) (r + 1) (by omega),
      show r + 1 + kk = r + (kk + 1) from by omega,
      show y + 1 + kk + 1 = y + (kk + 1) + 1 from by omega,
      show j' + 1 - (kk + 1 + 1) = j' - (kk + 1) from by omega]

/-- C8 counterexample, mirroring the repository's own basic test: a
task that yields 2 times needs 3 resumes to reach completion, so the
number of yield calls that occur before `is_finished()` becomes true
(2) does NOT equal the number of resume calls needed (3) — the claim's
first equality is off by one. -/
theorem yields_ne_resumes_cex :
    ∃ m, run 9 (initMachine [Op.construct [Op.doYield, Op.doYield], Op.resumeAt 1, Op.resumeAt 1, Op.resumeAt 1]) = .halted m
      ∧ (m.co_list[1]?).map Frame.m_finished = some true
      ∧ m.nyields = 2 ∧ m.nresumes = 3
      ∧ ¬ m.nyields = m.nresumes :=
  ⟨_, rfl, rfl, rfl, rfl, by decide⟩

/-- C8 amended: for every N, a coroutine whose task yields exactly N
times before returning is driven to completion by exactly N + 1
resume() calls — one more than the N yield() calls that occur before
`is_finished()` becomes true: with N + 1 pending resumes the run halts
with the coroutine finished, N yields and N + 1 resumes counted, while
with only N pending resumes the run halts with the coroutine still
unfinished after N resumes. -/
theorem task_yielding_n_times_needs_succ_n_resumes (N : Nat) :
    (∃ m, run (2 * N + 5) (initMachine (Op.construct (List.replicate N Op.doYield) :: List.replicate (N + 1) (Op.resumeAt 1))) = .halted m
       ∧ (m.co_list[1]?).map Frame.m_finished = some true
       ∧ m.nresumes = N + 1 ∧ m.nyields = N)
    ∧ (∃ m, run (2 * N + 5) (initMachine (Op.construct (List.replicate N Op.doYield) :: List.replicate N (Op.resumeAt 1))) = .halted m
       ∧ (m.co_list[1]?).map Frame.m_finished = some false
       ∧ m.nresumes = N) := by
  constructor
  · have hA : step (initMachine (Op.construct (List.replicate N Op.doYield) :: List.replicate (N + 1) (Op.resumeAt 1))) = .next { co_list := [co_root, ⟨1, false, List.replicate N Op.doYield⟩], handles := [Cont.uninit, Cont.start 1], co_cur_index := 0, cur := Cont.seq 0 (List.replicate (N + 1) (Op.resumeAt 1)), counter := 0, nresumes := 0, nyields := 0 } := rfl
    have hB : step ({ co_list := [co_root, ⟨1, false, List.replicate N Op.doYield⟩], handles := [Cont.uninit, Cont.start 1], co_cur_index := 0, cur := Cont.seq 0 (List.replicate (N + 1) (Op.resumeAt 1)), counter := 0, nresumes := 0, nyields := 0 } : Machine) = .next { co_list := [co_root, ⟨1, false, List.replicate N Op.doYield⟩], handles := [Cont.seq 0 (List.replicate N (Op.resumeAt 1)), Cont.start 1], co_cur_index := 1, cur := Cont.start 1, counter := 0, nresumes := 1, nyields := 0 } := rfl
    have hC : step ({ co_list := [co_root, ⟨1, false, List.replicate N Op.doYield⟩], handles := [Cont.seq 0 (List.replicate N (Op.resumeAt 1)), Cont.start 1], co_cur_index := 1, cur := Cont.start 1, counter := 0, nresumes := 1, nyields := 0 } : Machine) = .next (taskM (List.replicate N Op.doYield) N (Cont.start 1) (List.replicate N (Op.resumeAt 1)) 0 0 1) := rfl
    refine ⟨{ co_list := [co_root, ⟨1, true, List.replicate N Op.doYield⟩], handles := [Cont.seq 0 [], if N = 0 then Cont.start 1 else Cont.seq 1 []], co_cur_index := 1, cur := Cont.seq 0 [], counter := 0, nresumes := 1 + N, nyields := 0 + N }, ?_, ?_, ?_, ?_⟩
    · rw [show 2 * N + 5 = 2 * N + 2 + 1 + 1 + 1 from by omega,
        run_step_next _ hA, run_step_next _ hB, run_step_next _ hC]
      exact drive_done (List.replicate N Op.doYield) N (Cont.start 1) 0 0 1
    · rfl
    · show 1 + N = N + 1
      omega
    · show 0 + N = N
      omega
  · cases N with
    | zero =>
      refine ⟨{ co_list := [co_root, ⟨1, false, []⟩], handles := [Cont.uninit, Cont.start 1], co_cur_index := 0, cur := Cont.seq 0 [], counter := 0, nresumes := 0, nyields := 0 }, ?_, rfl, rfl⟩
      have h2 : run 2 (initMachine (Op.construct (List.replicate 0 Op.doYield) :: List.replicate 0 (Op.resumeAt 1))) = .halted { co_list := [co_root, ⟨1, false, []⟩], handles := [Cont.uninit, Cont.start 1], co_cur_index := 0, cur := Cont.seq 0 [], counter := 0, nresumes := 0, nyields := 0 } := rfl
      exact run_halted_le (by omega) h2
    | succ k =>
      have hA : step (initMachine (Op.construct (List.replicate (k + 1) Op.doYield) :: List.replicate (k + 1) (Op.resumeAt 1))) = .next { co_list := [co_root, ⟨1, false, List.replicate (k + 1) Op.doYield⟩], handles := [Cont.uninit, Cont.start 1], co_cur_index := 0, cur := Cont.seq 0 (List.replicate (k + 1) (Op.resumeAt 1)), counter := 0, nresumes := 0, nyields := 0 } := rfl
      have hB : step ({ co_list := [co_root, ⟨1, false, List.replicate (k + 1) Op.doYield⟩], handles := [Cont.uninit, Cont.start 1], co_cur_index := 0, cur := Cont.seq 0 (List.replicate (k + 1) (Op.resumeAt 1)), counter := 0, nresumes := 0, nyields := 0 } : Machine) = .next { co_list := [co_root, ⟨1, false, List.replicate (k + 1) Op.doYield⟩], handles := [Cont.seq 0 (List.replicate k (Op.resumeAt 1)), Cont.start 1], co_cur_index := 1, cur := Cont.start 1, counter := 0, nresumes := 1, nyields := 0 } := rfl
      have hC : step ({ co_list := [co_root, ⟨1, false, List.replicate (k + 1) Op.doYield⟩], handles := [Cont.seq 0 (List.replicate k (Op.resumeAt 1)), Cont.start 1], co_cur_index := 1, cur := Cont.start 1, counter := 0, nresumes := 1, nyields := 0 } : Machine) = .next (taskM (List.replicate (k + 1) Op.doYield) (k + 1) (Cont.start 1) (List.replicate k (Op.resumeAt 1)) 0 0 1) := rfl
      have hchain : run (2 * k + 2 + 1 + 1 + 1) (initMachine (Op.construct (List.replicate (k + 1) Op.doYield) :: List.replicate (k + 1) (Op.resumeAt 1))) = .halted { co_list := [co_root, ⟨1, false, List.replicate (k + 1) Op.doYield⟩], handles := [Cont.seq 0 [], Cont.seq 1 (List.replicate (k + 1 - (k + 1)) Op.doYield)], co_cur_index := 0, cur := Cont.seq 0 [], counter := 0, nresumes := 1 + k, nyields := 0 + k + 1 } := by
        rw [run_step_next _ hA, run_step_next _ hB, run_step_next _ hC]
        exact drive_short (List.replicate (k + 1) Op.doYield) k (k + 1) (Cont.start 1) 0 0 1 (by omega)
      refine ⟨_, run_halted_le (show 2 * k + 2 + 1 + 1 + 1 ≤ 2 * (k + 1) + 5 from by omega) hchain, rfl, ?_⟩
      show 1 + k = k + 1
      omega

end SimpleCoro
